import Mathlib

/-!
# rpi-osc: the OSC listener and the audio callback of `portaudio_in.cpp`

A shallow embedding of `RpiPacketListener` (constructor, `getState`,
`ProcessMessage`) and of `fuzzCallback`, followed by the theorems that settle
the properties C1 .. C10 of the specification.

Conventions of the embedding

* `float` values are rationals: every arithmetic step is exact, so `0.03` is
  `3/100`, `0.2` is `1/5` and `1024` is `1024`.  The rounding of each result
  to binary32 (and of `mPrevSum - 0.03` to a double and then to binary32) is
  not modelled: every statement below about an envelope, a raw sum or a duty
  value is a statement over exact arithmetic.
* `int` values are integers.  The two places where an `int` is produced by an
  operation that can leave the 32-bit range are explicit: the increment of
  `gNumNoInputs` (`wrapInt32`) and the cast `(int) std::abs(..)`
  (`castToInt`, which has no result outside the range).
* Buffers are lists of samples walked front to back, as the pointers
  `*in++` and `*out++` walk them.  The stream is opened with two interleaved
  channels, so a buffer of `framesPerBuffer` frames holds
  `2 * framesPerBuffer` samples: sample `2k` is channel 0 of frame `k`,
  sample `2k + 1` is channel 1 of frame `k`.
* `framesPerBuffer` is a natural number (the loop counter `unsigned int i`
  and the `unsigned long` bound have the same width on the target).
* The output buffer is a present buffer (a list); an invocation whose output
  pointer is `NULL` is not modelled.
-/

namespace RpiOsc

/-! ## Data model -/

/-- The record `struct RpiState { int program; float level; }`. -/
structure RpiState where
  program : Int
  level : ℚ
deriving DecidableEq

/-- The typed arguments an OSC message can carry (one constructor per OSC type tag). -/
inductive OscArg where
  | int32 (v : Int)
  | float32 (v : ℚ)
  | str (v : String)
  | symbol (v : String)
  | int64 (v : Int)
  | double (v : ℚ)
  | bool (v : Bool)
  | nil
  | infinitum
  | char (v : Char)
  | rgba (v : Nat)
  | midi (v : Nat)
  | timeTag (v : Nat)
  | blob (bytes : List Nat)
  | arrayBegin
  | arrayEnd
deriving DecidableEq

/-- A received message `osc::ReceivedMessage`: `AddressPattern()` and the
arguments behind `ArgumentStream()`.  Strings are the C strings oscpack hands
out (their content up to the terminating NUL). -/
structure OscMessage where
  addressPattern : String
  arguments : List OscArg
deriving DecidableEq

/-- The exceptions derived from `osc::Exception` that reading an argument
stream raises. -/
inductive OscException where
  | missingArgument
  | wrongArgumentType
  | excessArgument
deriving DecidableEq

/-- Modelled from the spec: oscpack's `operator>>(const char*&)` of
`ReceivedMessageArgumentStream` (library header, not in the repository): one
string argument is consumed; an exhausted stream is a missing argument, an
argument of any other type is a wrong argument type (the parsing errors the
comment at source lines 148-149 speaks of). -/
def readString : List OscArg → Except OscException (String × List OscArg)
  | [] => .error .missingArgument
  | .str v :: rest => .ok (v, rest)
  | _ :: _ => .error .wrongArgumentType

/-- Modelled from the spec: oscpack's `operator>>(float&)` of
`ReceivedMessageArgumentStream` (library header, not in the repository): one
float argument is consumed; an exhausted stream is a missing argument, an
argument of any other type is a wrong argument type. -/
def readFloat : List OscArg → Except OscException (ℚ × List OscArg)
  | [] => .error .missingArgument
  | .float32 v :: rest => .ok (v, rest)
  | _ :: _ => .error .wrongArgumentType

/-- Modelled from the spec: oscpack's `operator>>(MessageTerminator&)`, the
`>> osc::EndMessage` (library header, not in the repository): arguments left
in the stream are excess arguments. -/
def endMessage : List OscArg → Except OscException Unit
  | [] => .ok ()
  | _ :: _ => .error .excessArgument

/-! ## `RpiPacketListener` -/

/-- The class `RpiPacketListener`: its only data member is `mState`. -/
structure RpiPacketListener where
  mState : RpiState
deriving DecidableEq

/-- The constructor: `mState = { 0, 0.2 }`. -/
def RpiPacketListener.new : RpiPacketListener :=
  { mState := { program := 0, level := 1 / 5 } }

/-- The method `getState()`: `return mState;`. -/
def RpiPacketListener.getState (l : RpiPacketListener) : RpiState :=
  l.mState

/-- What one run of `ProcessMessage` leaves behind: the listener afterwards and
the values assigned to `mState` during the run, in order. -/
structure ProcessOutcome where
  listener : RpiPacketListener
  assignments : List RpiState
deriving DecidableEq

/-- The body of the `try` block of `ProcessMessage` (source lines 124-146). -/
def processTry (l : RpiPacketListener) (m : OscMessage) :
    Except OscException ProcessOutcome :=
  if m.addressPattern = "/rpi/program" then
    match readString m.arguments with
    | .error e => .error e
    | .ok (a1, args) =>
      match endMessage args with
      | .error e => .error e
      | .ok () =>
        let prog : Int := if a1 = "audioReactive" then 1 else 0
        let s : RpiState := { program := prog, level := l.mState.level }
        .ok { listener := { mState := s }, assignments := [s] }
  else if m.addressPattern = "/rpi/lightLevel" then
    match readFloat m.arguments with
    | .error e => .error e
    | .ok (a1, args) =>
      match endMessage args with
      | .error e => .error e
      | .ok () =>
        let s : RpiState := { program := l.mState.program, level := a1 }
        .ok { listener := { mState := s }, assignments := [s] }
  else
    .ok { listener := l, assignments := [] }

/-- The method `ProcessMessage`: the `try` block, and the handler
`catch( osc::Exception& e )`, which only prints.  An `.error` result would be
an exception that reaches the caller. -/
def ProcessMessage (l : RpiPacketListener) (m : OscMessage) :
    Except OscException ProcessOutcome :=
  match processTry l m with
  | .ok r => .ok r
  | .error _ => .ok { listener := l, assignments := [] }

/-- The listener after `ProcessMessage` (unchanged if an exception escaped). -/
def RpiPacketListener.afterMessage (l : RpiPacketListener) (m : OscMessage) :
    RpiPacketListener :=
  match ProcessMessage l m with
  | .ok r => r.listener
  | .error _ => l

/-! ## `fuzzCallback` -/

/-- Two's complement reduction of an integer to the 32-bit `int` range (what
the target does when `gNumNoInputs += 1` leaves the range). -/
def wrapInt32 (z : Int) : Int :=
  (z + 2147483648) % 4294967296 - 2147483648

/-- The conversion `(int) x` of a float: truncation toward zero, defined only
when the truncated value is an `int`. -/
def castToInt (x : ℚ) : Option Int :=
  if -2147483649 < x ∧ x < 2147483648 then
    some (if 0 ≤ x then ⌊x⌋ else ⌈x⌉)
  else
    none

/-- What the callback does to the PWM pin: `pwmWrite(PWM_PIN, v)` is called,
or it is not called (`pwmVal < 0`), or the cast that computes `pwmVal` has no
defined value. -/
inductive PwmEffect where
  | written (v : Int)
  | notWritten
  | undefinedCast
deriving DecidableEq

/-- The silence loop (source lines 187-191): each of the `n` iterations stores
`0` through `*out++` twice. -/
def silenceLoop : Nat → List ℚ → List ℚ
  | 0, out => out
  | _ + 1, [] => []
  | _ + 1, [_] => [0]
  | n + 1, _ :: _ :: rest => 0 :: 0 :: silenceLoop n rest

/-- The summing loop (source lines 196-199): each of the `n` iterations adds
one sample read through `*in++`. -/
def sumLoop : Nat → List ℚ → ℚ → ℚ
  | 0, _, sum => sum
  | _ + 1, [], sum => sum
  | n + 1, x :: rest, sum => sumLoop n rest (sum + x)

/-- Modelled from the spec: the PortAudio constant `paContinue` (library
header, not in the repository), the "continue" status. -/
def paContinue : Int := 0

/-- The file-scope variables the callback reads and writes. -/
structure AudioGlobals where
  mPrevSum : ℚ
  gNumNoInputs : Int
deriving DecidableEq

/-- The variables as the program starts: statics are zero-initialised. -/
def AudioGlobals.start : AudioGlobals :=
  { mPrevSum := 0, gNumNoInputs := 0 }

/-- Everything one invocation of `fuzzCallback` produces.  `rawSum` is the
local `sum` at line 201 (before the envelope step), `envelope` is `sum` at
line 206. -/
structure CallbackResult where
  rawSum : ℚ
  envelope : ℚ
  mPrevSum : ℚ
  gNumNoInputs : Int
  out : List ℚ
  pwm : PwmEffect
  ret : Int
deriving DecidableEq

/-- The function `fuzzCallback` (source lines 165-218).  `rpiState` is the value
`listener.getState()` returns at line 178; `inputBuffer = none` is
`inputBuffer == NULL`. -/
def fuzzCallback (rpiState : RpiState) (inputBuffer : Option (List ℚ))
    (outputBuffer : List ℚ) (framesPerBuffer : Nat) (g : AudioGlobals) :
    CallbackResult :=
  -- lines 180-200
  let gathered : ℚ × List ℚ × Int :=
    if rpiState.program = 0 then
      (1, outputBuffer, g.gNumNoInputs)
    else
      match inputBuffer with
      | none =>
        (0, silenceLoop framesPerBuffer outputBuffer, wrapInt32 (g.gNumNoInputs + 1))
      | some samples =>
        (sumLoop framesPerBuffer samples 0, outputBuffer, g.gNumNoInputs)
  let sum0 := gathered.1
  -- lines 202-206
  let sum1 := if sum0 < g.mPrevSum then g.mPrevSum - 3 / 100 else sum0
  -- lines 208-212
  let pwm : PwmEffect :=
    match castToInt |sum1 * rpiState.level * 1024| with
    | none => .undefinedCast
    | some pwmVal => if pwmVal ≥ 0 then .written pwmVal else .notWritten
  { rawSum := sum0
    envelope := sum1
    mPrevSum := sum1
    gNumNoInputs := gathered.2.2
    out := gathered.2.1
    pwm := pwm
    ret := paContinue }

/-! ## Runs of the program -/

/-- The arguments of one invocation of `fuzzCallback`, with the control state
its `listener.getState()` returns. -/
structure Invocation where
  rpiState : RpiState
  inputBuffer : Option (List ℚ)
  outputBuffer : List ℚ
  framesPerBuffer : Nat

/-- Successive invocations of the callback: each one finds in `mPrevSum` and
`gNumNoInputs` what the one before left there. -/
def runCallbacks (g : AudioGlobals) : List Invocation → List CallbackResult
  | [] => []
  | v :: rest =>
    let r := fuzzCallback v.rpiState v.inputBuffer v.outputBuffer v.framesPerBuffer g
    r :: runCallbacks { mPrevSum := r.mPrevSum, gNumNoInputs := r.gNumNoInputs } rest

/-- The envelopes of a run from program start: entry `0` is the initial stored
envelope, entry `k + 1` the envelope of invocation `k`. -/
def envelopeTrace (invs : List Invocation) : List ℚ :=
  AudioGlobals.start.mPrevSum ::
    (runCallbacks AudioGlobals.start invs).map (fun r => r.envelope)

/-- The raw sums of a run from program start: entry `k` is the raw sum of
invocation `k`. -/
def rawSumTrace (invs : List Invocation) : List ℚ :=
  (runCallbacks AudioGlobals.start invs).map (fun r => r.rawSum)

/-- The whole mutable state of the program: the listener object and the
file-scope variables of the callback. -/
structure World where
  listener : RpiPacketListener
  audio : AudioGlobals
deriving DecidableEq

/-- The state when both threads start. -/
def World.start : World :=
  { listener := RpiPacketListener.new, audio := AudioGlobals.start }

/-- The raw sum in the specification's words: the sum of the channel-0 sample
of every frame, `in[2k]` for `k < framesPerBuffer`. -/
def specChannel0Sum (framesPerBuffer : Nat) (samples : List ℚ) : ℚ :=
  ((List.range framesPerBuffer).map (fun k => samples.getD (2 * k) 0)).sum

/-- The actuator value in the specification's words: `round(|envelope * level * 1024|)`. -/
def specDuty (envelope level : ℚ) : Int :=
  round |envelope * level * 1024|

/-- An interleaved stereo buffer of `n` frames with the constant `a` on channel
0 and the constant `b` on channel 1. -/
def stereoConst (a b : ℚ) : Nat → List ℚ
  | 0 => []
  | n + 1 => a :: b :: stereoConst a b n

/-- The listener of the end-to-end scenario: constructed, then handed the
program message and the level message. -/
def scenarioListener : RpiPacketListener :=
  (RpiPacketListener.new.afterMessage
      { addressPattern := "/rpi/program", arguments := [.str "audioReactive"] }).afterMessage
    { addressPattern := "/rpi/lightLevel", arguments := [.float32 (1 / 2)] }

/-- A run of two invocations: a Manual one, then an AudioReactive one on a
silent two-frame buffer. -/
def sampleRun : List Invocation :=
  [ { rpiState := { program := 0, level := 1 / 5 }, inputBuffer := none,
      outputBuffer := [], framesPerBuffer := 2 },
    { rpiState := { program := 1, level := 1 / 5 }, inputBuffer := some [0, 0, 0, 0],
      outputBuffer := [0, 0, 0, 0], framesPerBuffer := 2 } ]

/-! ## Lemmas about the loops and the fields of the callback's result -/

theorem sumLoop_eq_take_sum (n : Nat) (xs : List ℚ) (s : ℚ) :
    sumLoop n xs s = s + (xs.take n).sum := by
  induction n generalizing xs s with
  | zero => simp [sumLoop]
  | succ n ih =>
    cases xs with
    | nil => simp [sumLoop]
    | cons x rest => simp [sumLoop, ih, add_assoc]

theorem silenceLoop_eq_replicate (n : Nat) (out : List ℚ) (h : out.length = 2 * n) :
    silenceLoop n out = List.replicate (2 * n) 0 := by
  induction n generalizing out with
  | zero =>
    have hnil : out = [] := by simpa using h
    simp [silenceLoop, hnil]
  | succ n ih =>
    match out, h with
    | _ :: _ :: rest, h =>
      have h2 : rest.length = 2 * n := by
        simp only [List.length_cons] at h
        omega
      have h3 : 2 * (n + 1) = (2 * n + 1) + 1 := by ring
      rw [h3]
      simp [silenceLoop, ih rest h2, List.replicate_succ]
    | [_], h =>
      simp only [List.length_cons, List.length_nil] at h
      omega
    | [], h =>
      simp only [List.length_nil] at h
      omega

theorem wrapInt32_of_range (z : Int) (h1 : -2147483648 ≤ z) (h2 : z < 2147483648) :
    wrapInt32 z = z := by
  unfold wrapInt32
  omega

theorem castToInt_of_nonneg (x : ℚ) (h0 : 0 ≤ x) (h : x < 2147483648) :
    castToInt x = some ⌊x⌋ := by
  have h1 : (-2147483649 : ℚ) < x := by linarith
  unfold castToInt
  rw [if_pos ⟨h1, h⟩, if_pos h0]

theorem fuzzCallback_rawSum (st : RpiState) (inp : Option (List ℚ)) (out : List ℚ)
    (n : Nat) (g : AudioGlobals) :
    (fuzzCallback st inp out n g).rawSum =
      if st.program = 0 then 1
      else match inp with
        | none => 0
        | some samples => sumLoop n samples 0 := by
  unfold fuzzCallback
  by_cases h : st.program = 0
  · simp only [h, if_true]
  · cases inp <;> simp only [h, if_false]

theorem fuzzCallback_out (st : RpiState) (inp : Option (List ℚ)) (out : List ℚ)
    (n : Nat) (g : AudioGlobals) :
    (fuzzCallback st inp out n g).out =
      if st.program = 0 then out
      else match inp with
        | none => silenceLoop n out
        | some _ => out := by
  unfold fuzzCallback
  by_cases h : st.program = 0
  · simp only [h, if_true]
  · cases inp <;> simp only [h, if_false]

theorem fuzzCallback_gNumNoInputs (st : RpiState) (inp : Option (List ℚ)) (out : List ℚ)
    (n : Nat) (g : AudioGlobals) :
    (fuzzCallback st inp out n g).gNumNoInputs =
      if st.program = 0 then g.gNumNoInputs
      else match inp with
        | none => wrapInt32 (g.gNumNoInputs + 1)
        | some _ => g.gNumNoInputs := by
  unfold fuzzCallback
  by_cases h : st.program = 0
  · simp only [h, if_true]
  · cases inp <;> simp only [h, if_false]

theorem fuzzCallback_envelope (st : RpiState) (inp : Option (List ℚ)) (out : List ℚ)
    (n : Nat) (g : AudioGlobals) :
    (fuzzCallback st inp out n g).envelope =
      if (fuzzCallback st inp out n g).rawSum < g.mPrevSum then g.mPrevSum - 3 / 100
      else (fuzzCallback st inp out n g).rawSum :=
  rfl

theorem fuzzCallback_mPrevSum (st : RpiState) (inp : Option (List ℚ)) (out : List ℚ)
    (n : Nat) (g : AudioGlobals) :
    (fuzzCallback st inp out n g).mPrevSum = (fuzzCallback st inp out n g).envelope :=
  rfl

theorem fuzzCallback_pwm (st : RpiState) (inp : Option (List ℚ)) (out : List ℚ)
    (n : Nat) (g : AudioGlobals) :
    (fuzzCallback st inp out n g).pwm =
      match castToInt |(fuzzCallback st inp out n g).envelope * st.level * 1024| with
      | none => .undefinedCast
      | some pwmVal => if pwmVal ≥ 0 then .written pwmVal else .notWritten :=
  rfl

/-- Within the `int` range the callback writes the drive truncated to an integer. -/
theorem fuzzCallback_pwm_floor (st : RpiState) (inp : Option (List ℚ)) (out : List ℚ)
    (n : Nat) (g : AudioGlobals)
    (h : |(fuzzCallback st inp out n g).envelope * st.level * 1024| < 2147483648) :
    (fuzzCallback st inp out n g).pwm =
      .written ⌊|(fuzzCallback st inp out n g).envelope * st.level * 1024|⌋ := by
  rw [fuzzCallback_pwm, castToInt_of_nonneg _ (abs_nonneg _) h]
  have h0 : (0 : Int) ≤ ⌊|(fuzzCallback st inp out n g).envelope * st.level * 1024|⌋ :=
    Int.floor_nonneg.mpr (abs_nonneg _)
  simp only [ge_iff_le, h0, if_true]

theorem runCallbacks_transition (g : AudioGlobals) (invs : List Invocation) (k : Nat)
    (hk : k < invs.length) :
    ((g.mPrevSum :: (runCallbacks g invs).map (fun r => r.envelope)).getD (k + 1) 0 =
          ((runCallbacks g invs).map (fun r => r.rawSum)).getD k 0 ∧
        ((runCallbacks g invs).map (fun r => r.rawSum)).getD k 0 ≥
          (g.mPrevSum :: (runCallbacks g invs).map (fun r => r.envelope)).getD k 0) ∨
      ((g.mPrevSum :: (runCallbacks g invs).map (fun r => r.envelope)).getD (k + 1) 0 =
          (g.mPrevSum :: (runCallbacks g invs).map (fun r => r.envelope)).getD k 0 - 3 / 100 ∧
        ((runCallbacks g invs).map (fun r => r.rawSum)).getD k 0 <
          (g.mPrevSum :: (runCallbacks g invs).map (fun r => r.envelope)).getD k 0) := by
  induction invs generalizing g k with
  | nil => simp at hk
  | cons v rest ih =>
    cases k with
    | zero =>
      simp only [runCallbacks, List.map_cons, List.getD_cons_zero, List.getD_cons_succ, zero_add]
      rw [fuzzCallback_envelope]
      split_ifs with h
      · right; exact ⟨rfl, h⟩
      · left; exact ⟨rfl, not_lt.mp h⟩
    | succ k =>
      have hk2 : k < rest.length := by simpa using hk
      have h := ih
        { mPrevSum :=
            (fuzzCallback v.rpiState v.inputBuffer v.outputBuffer v.framesPerBuffer g).mPrevSum,
          gNumNoInputs :=
            (fuzzCallback v.rpiState v.inputBuffer v.outputBuffer v.framesPerBuffer g).gNumNoInputs }
        k hk2
      simp only [runCallbacks, List.map_cons, List.getD_cons_succ]
      simp only [fuzzCallback_mPrevSum] at h
      exact h

/-! ## The claims -/

/-- C1: the envelope step of `fuzzCallback`.  For every invocation the new
envelope is the raw sum `r` when `r >= p` and `p - 0.03` when `r < p` (`p` the
stored previous envelope), and it is what the invocation stores in `mPrevSum`;
and in every run from program start each consecutive pair of envelopes is an
attack (`e (k+1) = r (k+1)`, with `r (k+1) >= e k`) or a decay
(`e (k+1) = e k - 0.03`, with `r (k+1) < e k`). -/
theorem fuzzCallback_envelope_transitions (st : RpiState) (inp : Option (List ℚ))
    (out : List ℚ) (n : Nat) (g : AudioGlobals) (invs : List Invocation) (k : Nat)
    (hk : k < invs.length) :
    ((fuzzCallback st inp out n g).envelope =
        if (fuzzCallback st inp out n g).rawSum < g.mPrevSum then g.mPrevSum - 3 / 100
        else (fuzzCallback st inp out n g).rawSum) ∧
      (fuzzCallback st inp out n g).mPrevSum = (fuzzCallback st inp out n g).envelope ∧
      (((envelopeTrace invs).getD (k + 1) 0 = (rawSumTrace invs).getD k 0 ∧
          (rawSumTrace invs).getD k 0 ≥ (envelopeTrace invs).getD k 0) ∨
        ((envelopeTrace invs).getD (k + 1) 0 = (envelopeTrace invs).getD k 0 - 3 / 100 ∧
          (rawSumTrace invs).getD k 0 < (envelopeTrace invs).getD k 0)) :=
  ⟨rfl, rfl, runCallbacks_transition AudioGlobals.start invs k hk⟩

/-- Witness of C1: the second step of `sampleRun`. -/
theorem fuzzCallback_envelope_transitions_witness :
    1 < sampleRun.length ∧
    ((fuzzCallback { program := 1, level := 1 / 2 } (some [1, 2]) [0, 0] 1
          { mPrevSum := 5, gNumNoInputs := 0 }).envelope =
        if (fuzzCallback { program := 1, level := 1 / 2 } (some [1, 2]) [0, 0] 1
              { mPrevSum := 5, gNumNoInputs := 0 }).rawSum <
            ({ mPrevSum := 5, gNumNoInputs := 0 } : AudioGlobals).mPrevSum then
          ({ mPrevSum := 5, gNumNoInputs := 0 } : AudioGlobals).mPrevSum - 3 / 100
        else (fuzzCallback { program := 1, level := 1 / 2 } (some [1, 2]) [0, 0] 1
              { mPrevSum := 5, gNumNoInputs := 0 }).rawSum) ∧
      (fuzzCallback { program := 1, level := 1 / 2 } (some [1, 2]) [0, 0] 1
          { mPrevSum := 5, gNumNoInputs := 0 }).mPrevSum =
        (fuzzCallback { program := 1, level := 1 / 2 } (some [1, 2]) [0, 0] 1
          { mPrevSum := 5, gNumNoInputs := 0 }).envelope ∧
      (((envelopeTrace sampleRun).getD (1 + 1) 0 = (rawSumTrace sampleRun).getD 1 0 ∧
          (rawSumTrace sampleRun).getD 1 0 ≥ (envelopeTrace sampleRun).getD 1 0) ∨
        ((envelopeTrace sampleRun).getD (1 + 1) 0 =
            (envelopeTrace sampleRun).getD 1 0 - 3 / 100 ∧
          (rawSumTrace sampleRun).getD 1 0 < (envelopeTrace sampleRun).getD 1 0)) :=
  ⟨by decide,
    fuzzCallback_envelope_transitions { program := 1, level := 1 / 2 } (some [1, 2]) [0, 0] 1
      { mPrevSum := 5, gNumNoInputs := 0 } sampleRun 1 (by decide)⟩

theorem address_lightLevel_ne_program : ("/rpi/lightLevel" : String) ≠ "/rpi/program" := by
  decide

/-- C3: command decode in `ProcessMessage`.  From every listener state, a
message to "/rpi/program" with exactly one string argument `v` yields the
state with `program = 1` if `v` is exactly "audioReactive" and `0` otherwise
and with the level kept; a message to "/rpi/lightLevel" with exactly one float
argument `x` yields the state with the program kept and `level = x`.  Each of
the two returns normally and assigns `mState` exactly once. -/
theorem ProcessMessage_decode (l : RpiPacketListener) (v : String) (x : ℚ) :
    ProcessMessage l { addressPattern := "/rpi/program", arguments := [.str v] } =
        .ok { listener :=
                { mState := { program := if v = "audioReactive" then 1 else 0,
                              level := l.getState.level } },
              assignments :=
                [{ program := if v = "audioReactive" then 1 else 0,
                   level := l.getState.level }] } ∧
      ProcessMessage l { addressPattern := "/rpi/lightLevel", arguments := [.float32 x] } =
        .ok { listener := { mState := { program := l.getState.program, level := x } },
              assignments := [{ program := l.getState.program, level := x }] } ∧
      (l.afterMessage { addressPattern := "/rpi/program", arguments := [.str v] }).getState =
        { program := if v = "audioReactive" then 1 else 0, level := l.getState.level } ∧
      (l.afterMessage { addressPattern := "/rpi/lightLevel", arguments := [.float32 x] }).getState =
        { program := l.getState.program, level := x } := by
  have hne := address_lightLevel_ne_program
  refine ⟨?_, ?_, ?_, ?_⟩ <;>
    simp [RpiPacketListener.afterMessage, ProcessMessage, processTry, readString, readFloat,
      endMessage, RpiPacketListener.getState, hne]

/-- C4: rejected messages leave the control state unchanged.  For every
listener state and every message whose address is neither "/rpi/program" nor
"/rpi/lightLevel", or whose address is one of the two and whose argument list
is not exactly one argument of the expected type (one string for program, one
float for lightLevel), `ProcessMessage` returns normally, assigns nothing to
`mState`, and `getState()` afterwards returns the same state. -/
theorem ProcessMessage_rejected (l : RpiPacketListener) (m : OscMessage)
    (h : (m.addressPattern ≠ "/rpi/program" ∧ m.addressPattern ≠ "/rpi/lightLevel") ∨
      (m.addressPattern = "/rpi/program" ∧ ∀ v, m.arguments ≠ [.str v]) ∨
      (m.addressPattern = "/rpi/lightLevel" ∧ ∀ x, m.arguments ≠ [.float32 x])) :
    ProcessMessage l m = .ok { listener := l, assignments := [] } ∧
      (l.afterMessage m).getState = l.getState ∧
      (l.afterMessage m).getState.program = l.getState.program ∧
      (l.afterMessage m).getState.level = l.getState.level := by
  have hne := address_lightLevel_ne_program
  have key : ProcessMessage l m = .ok { listener := l, assignments := [] } := by
    obtain ⟨addr, args⟩ := m
    rcases h with ⟨h1, h2⟩ | ⟨h1, h2⟩ | ⟨h1, h2⟩
    · simp only at h1 h2
      simp [ProcessMessage, processTry, h1, h2]
    · simp only at h1 h2
      subst h1
      match args, h2 with
      | [], _ => simp [ProcessMessage, processTry, readString]
      | [a], h2 =>
        cases a <;> first
          | (exact absurd rfl (h2 _))
          | simp [ProcessMessage, processTry, readString]
      | a :: b :: rest, _ =>
        cases a <;> simp [ProcessMessage, processTry, readString, endMessage]
    · simp only at h1 h2
      subst h1
      match args, h2 with
      | [], _ => simp [ProcessMessage, processTry, readFloat, hne]
      | [a], h2 =>
        cases a <;> first
          | (exact absurd rfl (h2 _))
          | simp [ProcessMessage, processTry, readFloat, hne]
      | a :: b :: rest, _ =>
        cases a <;> simp [ProcessMessage, processTry, readFloat, endMessage, hne]
  have hafter : l.afterMessage m = l := by
    simp [RpiPacketListener.afterMessage, key]
  exact ⟨key, by rw [hafter], by rw [hafter], by rw [hafter]⟩

/-- Witness of C4: a program message with an integer argument and an extra
argument is rejected. -/
theorem ProcessMessage_rejected_witness :
    ProcessMessage RpiPacketListener.new
          { addressPattern := "/rpi/program", arguments := [.int32 1, .str "audioReactive"] } =
        .ok { listener := RpiPacketListener.new, assignments := [] } ∧
      (RpiPacketListener.new.afterMessage
          { addressPattern := "/rpi/program",
            arguments := [.int32 1, .str "audioReactive"] }).getState =
        RpiPacketListener.new.getState ∧
      (RpiPacketListener.new.afterMessage
          { addressPattern := "/rpi/program",
            arguments := [.int32 1, .str "audioReactive"] }).getState.program =
        RpiPacketListener.new.getState.program ∧
      (RpiPacketListener.new.afterMessage
          { addressPattern := "/rpi/program",
            arguments := [.int32 1, .str "audioReactive"] }).getState.level =
        RpiPacketListener.new.getState.level :=
  ProcessMessage_rejected RpiPacketListener.new
    { addressPattern := "/rpi/program", arguments := [.int32 1, .str "audioReactive"] }
    (Or.inr (Or.inl ⟨rfl, fun v => by simp⟩))

/-- C5 as stated fails: in Manual mode (`program = 0`) an invocation without
input buffer takes the first branch, so the output buffer keeps its samples
and the missed-input counter keeps its value. -/
theorem fuzzCallback_manual_null_input_untouched :
    (fuzzCallback { program := 0, level := 1 / 5 } none [1, 1] 1
        { mPrevSum := 0, gNumNoInputs := 0 }).out = [1, 1] ∧
      (fuzzCallback { program := 0, level := 1 / 5 } none [1, 1] 1
        { mPrevSum := 0, gNumNoInputs := 0 }).gNumNoInputs = 0 ∧
      ¬ ((∀ x ∈ (fuzzCallback { program := 0, level := 1 / 5 } none [1, 1] 1
            { mPrevSum := 0, gNumNoInputs := 0 }).out, x = 0) ∧
        (fuzzCallback { program := 0, level := 1 / 5 } none [1, 1] 1
            { mPrevSum := 0, gNumNoInputs := 0 }).gNumNoInputs = 0 + 1) := by
  have h1 : (fuzzCallback { program := 0, level := 1 / 5 } none [1, 1] 1
        { mPrevSum := 0, gNumNoInputs := 0 }).out = [1, 1] := by
    rw [fuzzCallback_out]; rfl
  have h2 : (fuzzCallback { program := 0, level := 1 / 5 } none [1, 1] 1
        { mPrevSum := 0, gNumNoInputs := 0 }).gNumNoInputs = 0 := by
    rw [fuzzCallback_gNumNoInputs]; rfl
  refine ⟨h1, h2, ?_⟩
  rw [h2]
  rintro ⟨_, h⟩
  exact absurd h (by decide)

/-- C5, amended: for every invocation of `fuzzCallback` in AudioReactive mode
(`program ≠ 0`) whose input buffer is absent, with an output buffer of
`2 * framesPerBuffer` samples and a counter below `INT_MAX`, every one of the
`2 * framesPerBuffer` output samples is zero after the call and
`gNumNoInputs` is exactly one greater than before. -/
theorem fuzzCallback_null_input (st : RpiState) (out : List ℚ) (n : Nat) (g : AudioGlobals)
    (hmode : st.program ≠ 0) (hlen : out.length = 2 * n)
    (hlo : -2147483648 ≤ g.gNumNoInputs) (hhi : g.gNumNoInputs < 2147483647) :
    (fuzzCallback st none out n g).out = List.replicate (2 * n) 0 ∧
      (fuzzCallback st none out n g).out.length = 2 * n ∧
      (∀ x ∈ (fuzzCallback st none out n g).out, x = 0) ∧
      (fuzzCallback st none out n g).gNumNoInputs = g.gNumNoInputs + 1 := by
  have h1 : (fuzzCallback st none out n g).out = List.replicate (2 * n) 0 := by
    rw [fuzzCallback_out, if_neg hmode]
    exact silenceLoop_eq_replicate n out hlen
  refine ⟨h1, ?_, ?_, ?_⟩
  · rw [h1, List.length_replicate]
  · intro x hx
    rw [h1] at hx
    exact List.eq_of_mem_replicate hx
  · rw [fuzzCallback_gNumNoInputs, if_neg hmode]
    exact wrapInt32_of_range _ (by omega) (by omega)

/-- Witness of C5 amended: AudioReactive, two frames, no input. -/
theorem fuzzCallback_null_input_witness :
    (fuzzCallback { program := 1, level := 1 / 5 } none [3, 4, 5, 6] 2
        { mPrevSum := 0, gNumNoInputs := 7 }).out = List.replicate (2 * 2) 0 ∧
      (fuzzCallback { program := 1, level := 1 / 5 } none [3, 4, 5, 6] 2
        { mPrevSum := 0, gNumNoInputs := 7 }).out.length = 2 * 2 ∧
      (∀ x ∈ (fuzzCallback { program := 1, level := 1 / 5 } none [3, 4, 5, 6] 2
        { mPrevSum := 0, gNumNoInputs := 7 }).out, x = 0) ∧
      (fuzzCallback { program := 1, level := 1 / 5 } none [3, 4, 5, 6] 2
        { mPrevSum := 0, gNumNoInputs := 7 }).gNumNoInputs =
        ({ mPrevSum := 0, gNumNoInputs := 7 } : AudioGlobals).gNumNoInputs + 1 :=
  fuzzCallback_null_input { program := 1, level := 1 / 5 } [3, 4, 5, 6] 2
    { mPrevSum := 0, gNumNoInputs := 7 } (by decide) (by decide) (by decide) (by decide)

/-- What the summing branch computes: the sum of the first `framesPerBuffer`
samples of the interleaved buffer, whichever channel they belong to. -/
theorem fuzzCallback_rawSum_audio (st : RpiState) (samples out : List ℚ) (n : Nat)
    (g : AudioGlobals) (hmode : st.program ≠ 0) :
    (fuzzCallback st (some samples) out n g).rawSum = (samples.take n).sum := by
  rw [fuzzCallback_rawSum, if_neg hmode]
  simp only [sumLoop_eq_take_sum, zero_add]

/-- C6 at a failing input: two stereo frames with channel 0 = 1, 100 and
channel 1 = 10, 1000.  The callback's raw sum is 11 (both channels of frame 0),
the channel-0 sum of the claim is 101. -/
theorem fuzzCallback_rawSum_mixes_channels :
    (fuzzCallback { program := 1, level := 1 / 5 } (some [1, 10, 100, 1000]) [0, 0, 0, 0] 2
        AudioGlobals.start).rawSum = 11 ∧
      specChannel0Sum 2 [1, 10, 100, 1000] = 101 ∧
      (fuzzCallback { program := 1, level := 1 / 5 } (some [1, 10, 100, 1000]) [0, 0, 0, 0] 2
        AudioGlobals.start).rawSum ≠ specChannel0Sum 2 [1, 10, 100, 1000] := by
  have h1 : (fuzzCallback { program := 1, level := 1 / 5 } (some [1, 10, 100, 1000])
      [0, 0, 0, 0] 2 AudioGlobals.start).rawSum = 11 := by
    rw [fuzzCallback_rawSum_audio _ _ _ _ _ (by decide)]
    norm_num
  have h2 : specChannel0Sum 2 [1, 10, 100, 1000] = 101 := by
    simp [specChannel0Sum, List.range_succ]
    norm_num
  refine ⟨h1, h2, ?_⟩
  rw [h1, h2]
  norm_num

/-- The value written, from the envelope and two bounds that pin the truncation. -/
theorem fuzzCallback_pwm_eq (st : RpiState) (inp : Option (List ℚ)) (out : List ℚ)
    (n : Nat) (g : AudioGlobals) (e : ℚ) (v : Int)
    (he : (fuzzCallback st inp out n g).envelope = e) (hv : v < 2147483648)
    (h1 : (v : ℚ) ≤ |e * st.level * 1024|) (h2 : |e * st.level * 1024| < (v : ℚ) + 1) :
    (fuzzCallback st inp out n g).pwm = .written v := by
  have hvq : (v : ℚ) + 1 ≤ 2147483648 := by
    have : v + 1 ≤ 2147483648 := by omega
    exact_mod_cast this
  have hr : |(fuzzCallback st inp out n g).envelope * st.level * 1024| < 2147483648 := by
    rw [he]; linarith
  rw [fuzzCallback_pwm_floor st inp out n g hr, he]
  congr 1
  exact Int.floor_eq_iff.mpr ⟨h1, h2⟩

theorem sumLoop_stereoConst (a b : ℚ) (k m : Nat) (s : ℚ) (h : k ≤ m) :
    sumLoop (2 * k) (stereoConst a b m) s = s + k * (a + b) := by
  induction k generalizing m s with
  | zero => simp [sumLoop]
  | succ k ih =>
    cases m with
    | zero => omega
    | succ m =>
      have h2 : 2 * (k + 1) = (2 * k + 1) + 1 := by ring
      rw [h2]
      simp only [stereoConst, sumLoop]
      rw [ih m _ (by omega)]
      push_cast
      ring

theorem specChannel0Sum_stereoConst (a b : ℚ) (n m : Nat) (h : n ≤ m) :
    specChannel0Sum n (stereoConst a b m) = n * a := by
  induction n generalizing m with
  | zero => simp [specChannel0Sum]
  | succ n ih =>
    cases m with
    | zero => omega
    | succ m =>
      have hrec := ih m (by omega)
      unfold specChannel0Sum at hrec ⊢
      rw [List.range_succ_eq_map, List.map_cons, List.sum_cons, List.map_map]
      have hfun : ((fun k => (stereoConst a b (m + 1)).getD (2 * k) 0) ∘ Nat.succ) =
          fun k => (stereoConst a b m).getD (2 * k) 0 := by
        funext k
        have h2 : 2 * Nat.succ k = (2 * k + 1) + 1 := by
          simp only [Nat.succ_eq_add_one]; ring
        simp only [Function.comp, h2, stereoConst, List.getD_cons_succ]
      rw [hfun, hrec]
      simp only [stereoConst, Nat.mul_zero, List.getD_cons_zero]
      push_cast
      ring

theorem scenarioListener_state :
    scenarioListener.getState = { program := 1, level := 1 / 2 } := by
  simp [scenarioListener, RpiPacketListener.afterMessage, ProcessMessage, processTry,
    readString, readFloat, endMessage, RpiPacketListener.getState, RpiPacketListener.new,
    address_lightLevel_ne_program]

/-- C9 at a failing input: the scenario's two messages lead to the state
`{1, 0.5}`; the buffer has 64 stereo frames with channel 0 = 0.02 and channel
1 = 0, so its channel-0 sum is 1.28 and the claim expects 655.  The callback
sums the first 64 samples (both channels of frames 0..31): raw sum and
envelope are 0.64, and it passes 327 to `pwmWrite`. -/
theorem scenario_duty_is_327 :
    scenarioListener.getState = { program := 1, level := 1 / 2 } ∧
      specChannel0Sum 64 (stereoConst (1 / 50) 0 64) = 32 / 25 ∧
      specDuty (32 / 25) (1 / 2) = 655 ∧
      (fuzzCallback scenarioListener.getState (some (stereoConst (1 / 50) 0 64))
        (List.replicate 128 0) 64 AudioGlobals.start).rawSum = 16 / 25 ∧
      (fuzzCallback scenarioListener.getState (some (stereoConst (1 / 50) 0 64))
        (List.replicate 128 0) 64 AudioGlobals.start).envelope = 16 / 25 ∧
      (fuzzCallback scenarioListener.getState (some (stereoConst (1 / 50) 0 64))
        (List.replicate 128 0) 64 AudioGlobals.start).pwm = .written 327 := by
  have hraw : (fuzzCallback scenarioListener.getState (some (stereoConst (1 / 50) 0 64))
      (List.replicate 128 0) 64 AudioGlobals.start).rawSum = 16 / 25 := by
    rw [scenarioListener_state, fuzzCallback_rawSum, if_neg (by decide)]
    show sumLoop (2 * 32) (stereoConst (1 / 50) 0 64) 0 = 16 / 25
    rw [sumLoop_stereoConst (1 / 50) 0 32 64 0 (by decide)]
    norm_num
  have henv : (fuzzCallback scenarioListener.getState (some (stereoConst (1 / 50) 0 64))
      (List.replicate 128 0) 64 AudioGlobals.start).envelope = 16 / 25 := by
    rw [fuzzCallback_envelope, hraw]
    norm_num [AudioGlobals.start]
  refine ⟨scenarioListener_state, ?_, ?_, hraw, henv, ?_⟩
  · rw [specChannel0Sum_stereoConst _ _ _ _ (le_refl _)]
    norm_num
  · unfold specDuty
    rw [round_eq, Int.floor_eq_iff]
    norm_num [abs_of_nonneg]
  · refine fuzzCallback_pwm_eq _ _ _ _ _ (16 / 25) 327 henv (by decide) ?_ ?_ <;>
      norm_num [scenarioListener_state, abs_of_nonneg]

end RpiOsc
